import Mathlib

/-!
Formal model of the numerical core of `src/EEG/bandpower.py`.

The two entry points of the repository are `bandpower` (whole-signal band
power: Welch PSD estimate + Simpson integration) and `bandpower_in_periods`
(time-resolved band power: scipy spectrogram + trapezoidal integration).
Both are shallowly embedded here over `ℝ` (exact real arithmetic in place of
IEEE doubles), together with faithful models of the library routines they
call, as implemented in SciPy 1.10 / NumPy:

* `scipy.signal.welch` with its defaults: periodic Hann window,
  `noverlap = nperseg // 2`, constant detrend per segment, one-sided density
  scaling, mean average over segments, `nperseg` clamped to the signal
  length (with a warning), `ValueError` for `nperseg < 1`, and an empty
  result for an empty input;
* `scipy.signal.spectrogram` with its defaults: periodic Tukey(0.25)
  window, `noverlap = nperseg // 8`, constant detrend, one-sided density
  scaling, `mode='psd'`, segment-centre time stamps
  `t[i] = (nperseg/2 + i*(nperseg - noverlap))/fs`;
* `scipy.integrate.simps` with `even='avg'` (raises `IndexError` on an
  empty array, returns `0.0` for a single sample, the trapezoid for two);
* `np.trapz` (returns `0.0` for fewer than two samples).

Python exceptions are modelled with `Except PyErr`; in NumPy, float division
by zero does **not** raise — it silently produces `inf`/`nan` — so the
divisions performed by the source are modelled as total (no error path),
while `int()` of an infinite value (`OverflowError`) and out-of-bounds
indexing (`IndexError`) are modelled as errors, matching where the Python
code actually throws.
-/

open Real

noncomputable section

/-- Python exception kinds that the modelled code can raise. -/
inductive PyErr
  | valueError
  | indexError
  | overflowError
deriving DecidableEq

/-- Python `int()` applied to a real number: truncation toward zero. -/
def pyInt (x : ℝ) : ℤ := if x < 0 then -(⌊-x⌋) else ⌊x⌋

/-- numpy mean of a 1-d array (`v.sum() / len(v)`). -/
def npMean (v : List ℝ) : ℝ := v.sum / v.length

/-- `scipy.signal.detrend(seg, type='constant')`: subtract the mean. -/
def detrendConstant (v : List ℝ) : List ℝ := v.map (fun x => x - npMean v)

/-- `cos(2*pi*m/N)` for natural `m`, `N`: the cosine values appearing in the
periodic window formulas and in the DFT. -/
def cos2piFrac (m N : ℕ) : ℝ := Real.cos (2*π*(m:ℕ)/N)

/-- `sin(2*pi*m/N)` for natural `m`, `N`. -/
def sin2piFrac (m N : ℕ) : ℝ := Real.sin (2*π*(m:ℕ)/N)

/-- `scipy.signal.get_window('hann', N)` (periodic / `fftbins=True` form,
`w[n] = 0.5 - 0.5*cos(2*pi*n/N)`; scipy returns all-ones for `N <= 1`). -/
def hannPeriodic (N : ℕ) : List ℝ :=
  if N ≤ 1 then List.replicate N 1
  else (List.range N).map (fun n => 1/2 - cos2piFrac n N/2)

/-- `scipy.signal.windows.tukey(M, 0.25, sym=True)`: cosine tapers of width
`(M-1)//8` on both ends, ones in the middle (all-ones for `M <= 1`). -/
def tukeyQuarterSym (M : ℕ) : List ℝ :=
  if M ≤ 1 then List.replicate M 1
  else
    (List.range M).map (fun n =>
      if n ≤ (M-1)/8 then (1 + Real.cos (π*(8*(n:ℕ)/((M:ℕ)-1) - 1)))/2
      else if n < M - (M-1)/8 - 1 then 1
      else (1 + Real.cos (π*(8*(n:ℕ)/((M:ℕ)-1) - 7)))/2)

/-- `scipy.signal.get_window(('tukey', 0.25), N)` (`fftbins=True`): the
symmetric window of length `N+1` with the last point dropped. -/
def tukeyQuarterPeriodic (N : ℕ) : List ℝ :=
  if N ≤ 1 then List.replicate N 1 else (tukeyQuarterSym (N+1)).take N

/-- Real part of bin `k` of the length-`v.length` DFT
`X_k = sum_n v_n * exp(-2*pi*I*k*n/N)` (as computed by `np.fft.rfft`). -/
def dftRe (v : List ℝ) (k : ℕ) : ℝ :=
  ((List.range v.length).map (fun n => v.getD n 0 * cos2piFrac (k*n) v.length)).sum

/-- Imaginary part of bin `k` of the DFT of `v`. -/
def dftIm (v : List ℝ) (k : ℕ) : ℝ :=
  -((List.range v.length).map (fun n => v.getD n 0 * sin2piFrac (k*n) v.length)).sum

/-- `|X_k|^2`, the squared magnitude of DFT bin `k`. -/
def dftAbsSq (v : List ℝ) (k : ℕ) : ℝ := dftRe v k ^ 2 + dftIm v k ^ 2

/-- Number of analysis segments produced by scipy's strided segmentation:
`(N - noverlap) // step` with `step = nperseg - noverlap`. -/
def numSegments (N noverlap step : ℕ) : ℕ := (N - noverlap) / step

/-- Segment `i` of the signal: `data[i*step : i*step + nperseg]`. -/
def segmentAt (data : List ℝ) (nperseg step i : ℕ) : List ℝ :=
  (data.drop (i*step)).take nperseg

/-- Pointwise product of the taper window with a (detrended) segment. -/
def windowed (win seg : List ℝ) : List ℝ := (win.zip seg).map (fun p => p.1 * p.2)

/-- One-sided spectrum doubling: every bin except DC (and Nyquist when
`nfft` is even) is multiplied by 2. -/
def onesidedFactor (nfft k : ℕ) : ℝ := if k = 0 then 1 else if 2*k = nfft then 1 else 2

/-- `scaling='density'` normalisation: `1 / (fs * (win*win).sum())`. -/
def densityScale (fs : ℝ) (win : List ℝ) : ℝ := 1/(fs * (win.map (fun w => w^2)).sum)

/-- PSD value of one segment at frequency bin `k`: detrend, taper, DFT,
squared magnitude, density scaling and one-sided doubling. -/
def psdAt (win : List ℝ) (fs : ℝ) (nfft : ℕ) (seg : List ℝ) (k : ℕ) : ℝ :=
  onesidedFactor nfft k * densityScale fs win * dftAbsSq (windowed win (detrendConstant seg)) k

/-- `np.fft.rfftfreq(nfft, 1/fs)`: frequency bins `k*fs/nfft`,
`k = 0, ..., nfft // 2`. -/
def rfftfreqs (fs : ℝ) (nfft : ℕ) : List ℝ :=
  (List.range (nfft/2 + 1)).map (fun k => (k:ℕ)*fs/nfft)

/-- The PSD vector returned by `scipy.signal.welch(data, fs, nperseg=n)` for
a non-empty signal and valid `1 <= n <= len(data)`: mean over the
half-overlapping Hann-tapered segment periodograms. -/
def welchPSD (data : List ℝ) (fs : ℝ) (nperseg : ℕ) : List ℝ :=
  let win := hannPeriodic nperseg
  let step := nperseg - nperseg/2
  let m := numSegments data.length (nperseg/2) step
  (List.range (nperseg/2 + 1)).map (fun k =>
    (((List.range m).map (fun i => psdAt win fs nperseg (segmentAt data nperseg step i) k)).sum) / m)

/-- `scipy.signal.welch(data, fs, nperseg=npersegArg)` with default
arguments: empty input short-circuits to empty arrays; `nperseg < 1` is a
`ValueError`; `nperseg` greater than the signal length is clamped. -/
def welch (data : List ℝ) (fs : ℝ) (npersegArg : ℤ) : Except PyErr (List ℝ × List ℝ) :=
  if data.length = 0 then .ok ([], [])
  else if npersegArg < 1 then .error .valueError
  else
    let np2 := min npersegArg.toNat data.length
    .ok (rfftfreqs fs np2, welchPSD data fs np2)

/-- The inner uniform-spacing Simpson pass `_basic_simpson(y, start, ., dx)`
of scipy: `cnt` triples `(y_j, y_{j+1}, y_{j+2})`, `j = start + 2*i`. -/
def basicSimpson (ys : List ℝ) (start cnt : ℕ) (dx : ℝ) : ℝ :=
  ((List.range cnt).map (fun j =>
    dx/3 * (ys.getD (start + 2*j) 0 + 4 * ys.getD (start + 2*j + 1) 0
            + ys.getD (start + 2*j + 2) 0))).sum

/-- `scipy.integrate.simps(ys, dx=dx)` (default `even='avg'`): an empty
array raises `IndexError` (`y[-1]` is evaluated first); an odd number of
samples uses the plain composite rule; an even number averages the
first-interval-trapezoid and last-interval-trapezoid variants. -/
def simps (ys : List ℝ) (dx : ℝ) : Except PyErr ℝ :=
  if ys.length = 0 then .error .indexError
  else if ys.length % 2 = 1 then .ok (basicSimpson ys 0 ((ys.length - 1)/2) dx)
  else .ok ((basicSimpson ys 0 ((ys.length - 2)/2) dx
              + basicSimpson ys 1 ((ys.length - 2)/2) dx)/2
      + (dx/2 * (ys.getD (ys.length - 1) 0 + ys.getD (ys.length - 2) 0)
         + dx/2 * (ys.getD 0 0 + ys.getD 1 0))/2)

/-- `psd[np.logical_and(freqs >= low, freqs <= high)]`: the PSD values whose
frequency lies in the closed band. -/
def bandSelect (freqs psd : List ℝ) (low high : ℝ) : List ℝ :=
  ((freqs.zip psd).filter (fun p => decide (low ≤ p.1 ∧ p.1 ≤ high))).map Prod.snd

/-- The `nperseg` computation at the top of `bandpower`: either
`int(window_sec * sf)`, or the default `int((2 / low) * sf)`, which for
`low = 0` evaluates `int()` of a non-finite value and raises. -/
def npersegOf (sf low : ℝ) (wsec : Option ℝ) : Except PyErr ℤ :=
  match wsec with
  | some w => .ok (pyInt (w * sf))
  | none => if low = 0 then .error .overflowError else .ok (pyInt ((2 / low) * sf))

/-- `bandpower(data, sf, band, method, window_sec, relative)` from
`src/EEG/bandpower.py` (lines 64-113).  Note that the `method` argument is
bound but never read by the source: the Welch path is always taken. -/
def bandpower (data : List ℝ) (sf : ℝ) (band : ℝ × ℝ) (method : String)
    (wsec : Option ℝ) (relative : Bool) : Except PyErr ℝ :=
  match npersegOf sf band.1 wsec with
  | .error e => .error e
  | .ok np =>
    match welch data sf np with
    | .error e => .error e
    | .ok (freqs, psd) =>
      if freqs.length < 2 then .error .indexError
      else
        let freq_res := freqs.getD 1 0 - freqs.getD 0 0
        match simps (bandSelect freqs psd band.1 band.2) freq_res with
        | .error e => .error e
        | .ok bp =>
          if relative then
            match simps psd freq_res with
            | .error e => .error e
            | .ok total => .ok (bp / total)
          else .ok bp

/-- `np.trapz(ys, xs)` over a list of `(x, y)` pairs. -/
def trapzPairs (ps : List (ℝ × ℝ)) : ℝ :=
  ((List.range (ps.length - 1)).map (fun j =>
    ((ps.getD (j+1) (0,0)).1 - (ps.getD j (0,0)).1)
      * ((ps.getD j (0,0)).2 + (ps.getD (j+1) (0,0)).2)/2)).sum

/-- `scipy.signal.spectrogram(data, fs, nperseg=npersegArg)` with default
arguments, returning `(f, t, Sxx)` with `Sxx` indexed as `Sxx k i`
(frequency bin `k`, segment `i`).  A negative `nperseg` raises in
`get_window`; an empty signal short-circuits to empty arrays; `nperseg = 0`
raises `ValueError`; `nperseg` longer than the signal is clamped to the
signal length (with a warning).  Time stamps are segment centres. -/
def spectrogramModel (data : List ℝ) (fs : ℝ) (npersegArg : ℤ) :
    Except PyErr (List ℝ × List ℝ × (ℕ → ℕ → ℝ)) :=
  if npersegArg < 0 then .error .valueError
  else if data.length = 0 then .ok ([], [], fun _ _ => 0)
  else if npersegArg = 0 then .error .valueError
  else
    let np2 := min npersegArg.toNat data.length
    let win := tukeyQuarterPeriodic np2
    let step := np2 - np2/8
    let m := numSegments data.length (np2/8) step
    .ok (rfftfreqs fs np2,
         (List.range m).map (fun i => ((np2:ℕ)/2 + (i:ℕ)*(step:ℕ))/fs),
         fun k i => psdAt win fs np2 (segmentAt data np2 step i) k)

/-- The per-window inner loop of `bandpower_in_periods`: for each requested
band (in input order) integrate `Sxx[idx_band, i]` against `f[idx_band]`
with `np.trapz`. -/
def windowBandPowers (f : List ℝ) (Sxx : ℕ → ℕ → ℝ) (bands : List (String × (ℝ × ℝ)))
    (i : ℕ) : List (String × ℝ) :=
  bands.map (fun b =>
    (b.1, trapzPairs (((List.range f.length).filter
        (fun k => decide (b.2.1 ≤ f.getD k 0 ∧ f.getD k 0 ≤ b.2.2))).map
      (fun k => (f.getD k 0, Sxx k i)))))

/-- `bandpower_in_periods(data, sf, bands, window_sec, relative)` from
`src/EEG/bandpower.py` (lines 182-222): one output record per spectrogram
time stamp, `(t[i], t[i] + window_sec, band powers)`; with `relative=True`
each of the window's band powers is divided by their (pre-normalisation)
sum over the requested bands. -/
def bandpower_in_periods (data : List ℝ) (sf : ℝ) (bands : List (String × (ℝ × ℝ)))
    (wsec : ℝ) (relative : Bool) : Except PyErr (List (ℝ × ℝ × List (String × ℝ))) :=
  match spectrogramModel data sf (pyInt (wsec * sf)) with
  | .error e => .error e
  | .ok (f, t, Sxx) =>
    .ok ((List.range t.length).map (fun i =>
      let ps := windowBandPowers f Sxx bands i
      let total := (ps.map Prod.snd).sum
      (t.getD i 0, t.getD i 0 + wsec,
        if relative then ps.map (fun lp => (lp.1, lp.2 / total)) else ps)))

/-- Per-window normalisation by the window's own requested-bands total
(the `relative=True` branch of `bandpower_in_periods`). -/
def normalizePowers (ps : List (String × ℝ)) : List (String × ℝ) :=
  ps.map (fun lp => (lp.1, lp.2 / (ps.map Prod.snd).sum))

end

/-! ### Exact trigonometric value tables

Needed to evaluate the Hann/Tukey windows and the DFT on the concrete
signals used as witnesses and counterexamples (segment lengths 4 and 6). -/

/-- Value table for `cos (2*π*m/4)`. -/
theorem cosTwoPiDiv4 (m : ℕ) :
    cos2piFrac m 4 = if m % 4 = 0 then 1 else if m % 4 = 2 then -1 else 0 := by
  simp only [cos2piFrac, Nat.cast_ofNat]
  have hm : (m:ℝ) = ((m % 4 : ℕ):ℝ) + 4*((m / 4 : ℕ):ℝ) := by
    exact_mod_cast (Nat.mod_add_div m 4).symm
  have key : (2*Real.pi*m/4 : ℝ) = 2*Real.pi*((m % 4 : ℕ):ℝ)/4 + (m / 4 : ℕ) * (2*Real.pi) := by
    rw [hm]; ring
  rw [key, Real.cos_add_nat_mul_two_pi]
  have h4 : m % 4 < 4 := Nat.mod_lt _ (by norm_num)
  set r := m % 4 with hr
  interval_cases r
  · norm_num
  · have e : (2*Real.pi*((1:ℕ):ℝ)/4 : ℝ) = Real.pi/2 := by push_cast; ring
    rw [e, Real.cos_pi_div_two]; norm_num
  · have e : (2*Real.pi*((2:ℕ):ℝ)/4 : ℝ) = Real.pi := by push_cast; ring
    rw [e, Real.cos_pi]; norm_num
  · have e : (2*Real.pi*((3:ℕ):ℝ)/4 : ℝ) = Real.pi + Real.pi/2 := by push_cast; ring
    rw [e, Real.cos_add]; norm_num [Real.cos_pi_div_two, Real.sin_pi]

/-- Value table for `sin (2*π*m/4)`. -/
theorem sinTwoPiDiv4 (m : ℕ) :
    sin2piFrac m 4 = if m % 4 = 1 then 1 else if m % 4 = 3 then -1 else 0 := by
  simp only [sin2piFrac, Nat.cast_ofNat]
  have hm : (m:ℝ) = ((m % 4 : ℕ):ℝ) + 4*((m / 4 : ℕ):ℝ) := by
    exact_mod_cast (Nat.mod_add_div m 4).symm
  have key : (2*Real.pi*m/4 : ℝ) = 2*Real.pi*((m % 4 : ℕ):ℝ)/4 + (m / 4 : ℕ) * (2*Real.pi) := by
    rw [hm]; ring
  rw [key, Real.sin_add_nat_mul_two_pi]
  have h4 : m % 4 < 4 := Nat.mod_lt _ (by norm_num)
  set r := m % 4 with hr
  interval_cases r
  · norm_num
  · have e : (2*Real.pi*((1:ℕ):ℝ)/4 : ℝ) = Real.pi/2 := by push_cast; ring
    rw [e, Real.sin_pi_div_two]; norm_num
  · have e : (2*Real.pi*((2:ℕ):ℝ)/4 : ℝ) = Real.pi := by push_cast; ring
    rw [e, Real.sin_pi]; norm_num
  · have e : (2*Real.pi*((3:ℕ):ℝ)/4 : ℝ) = Real.pi + Real.pi/2 := by push_cast; ring
    rw [e, Real.sin_add]; norm_num [Real.sin_pi_div_two, Real.sin_pi, Real.cos_pi]

/-- Value table for `cos (2*π*m/6)`. -/
theorem cosTwoPiDiv6 (m : ℕ) :
    cos2piFrac m 6 =
      if m % 6 = 0 then 1 else if m % 6 = 1 then 1/2 else if m % 6 = 2 then -(1/2)
      else if m % 6 = 3 then -1 else if m % 6 = 4 then -(1/2) else 1/2 := by
  simp only [cos2piFrac, Nat.cast_ofNat]
  have hm : (m:ℝ) = ((m % 6 : ℕ):ℝ) + 6*((m / 6 : ℕ):ℝ) := by
    exact_mod_cast (Nat.mod_add_div m 6).symm
  have key : (2*Real.pi*m/6 : ℝ) = 2*Real.pi*((m % 6 : ℕ):ℝ)/6 + (m / 6 : ℕ) * (2*Real.pi) := by
    rw [hm]; ring
  rw [key, Real.cos_add_nat_mul_two_pi]
  have h6 : m % 6 < 6 := Nat.mod_lt _ (by norm_num)
  set r := m % 6 with hr
  interval_cases r
  · norm_num
  · have e : (2*Real.pi*((1:ℕ):ℝ)/6 : ℝ) = Real.pi/3 := by push_cast; ring
    rw [e, Real.cos_pi_div_three]; norm_num
  · have e : (2*Real.pi*((2:ℕ):ℝ)/6 : ℝ) = Real.pi - Real.pi/3 := by push_cast; ring
    rw [e, Real.cos_pi_sub, Real.cos_pi_div_three]; norm_num
  · have e : (2*Real.pi*((3:ℕ):ℝ)/6 : ℝ) = Real.pi := by push_cast; ring
    rw [e, Real.cos_pi]; norm_num
  · have e : (2*Real.pi*((4:ℕ):ℝ)/6 : ℝ) = Real.pi + Real.pi/3 := by push_cast; ring
    rw [e, Real.cos_add]; norm_num [Real.cos_pi_div_three, Real.sin_pi, Real.cos_pi]
  · have e : (2*Real.pi*((5:ℕ):ℝ)/6 : ℝ) = 2*Real.pi - Real.pi/3 := by push_cast; ring
    rw [e, Real.cos_two_pi_sub, Real.cos_pi_div_three]; norm_num

/-- Value table for `sin (2*π*m/6)`. -/
theorem sinTwoPiDiv6 (m : ℕ) :
    sin2piFrac m 6 =
      if m % 6 = 0 then 0 else if m % 6 = 1 then Real.sqrt 3/2
      else if m % 6 = 2 then Real.sqrt 3/2 else if m % 6 = 3 then 0
      else if m % 6 = 4 then -(Real.sqrt 3/2) else -(Real.sqrt 3/2) := by
  simp only [sin2piFrac, Nat.cast_ofNat]
  have hm : (m:ℝ) = ((m % 6 : ℕ):ℝ) + 6*((m / 6 : ℕ):ℝ) := by
    exact_mod_cast (Nat.mod_add_div m 6).symm
  have key : (2*Real.pi*m/6 : ℝ) = 2*Real.pi*((m % 6 : ℕ):ℝ)/6 + (m / 6 : ℕ) * (2*Real.pi) := by
    rw [hm]; ring
  rw [key, Real.sin_add_nat_mul_two_pi]
  have h6 : m % 6 < 6 := Nat.mod_lt _ (by norm_num)
  set r := m % 6 with hr
  interval_cases r
  · norm_num
  · have e : (2*Real.pi*((1:ℕ):ℝ)/6 : ℝ) = Real.pi/3 := by push_cast; ring
    rw [e, Real.sin_pi_div_three]; norm_num
  · have e : (2*Real.pi*((2:ℕ):ℝ)/6 : ℝ) = Real.pi - Real.pi/3 := by push_cast; ring
    rw [e, Real.sin_pi_sub, Real.sin_pi_div_three]; norm_num
  · have e : (2*Real.pi*((3:ℕ):ℝ)/6 : ℝ) = Real.pi := by push_cast; ring
    rw [e, Real.sin_pi]; norm_num
  · have e : (2*Real.pi*((4:ℕ):ℝ)/6 : ℝ) = Real.pi + Real.pi/3 := by push_cast; ring
    rw [e, Real.sin_add]; norm_num [Real.sin_pi_div_three, Real.sin_pi, Real.cos_pi]
  · have e : (2*Real.pi*((5:ℕ):ℝ)/6 : ℝ) = 2*Real.pi - Real.pi/3 := by push_cast; ring
    rw [e, Real.sin_two_pi_sub, Real.sin_pi_div_three]; norm_num

/-! ### Concrete window evaluations -/

theorem hannPeriodic_four : hannPeriodic 4 = [0, 1/2, 1, 1/2] := by
  unfold hannPeriodic
  rw [if_neg (by norm_num), show List.range 4 = [0,1,2,3] from rfl]
  norm_num [cosTwoPiDiv4]

theorem hannPeriodic_six : hannPeriodic 6 = [0, 1/4, 3/4, 1, 3/4, 1/4] := by
  unfold hannPeriodic
  rw [if_neg (by norm_num), show List.range 6 = [0,1,2,3,4,5] from rfl]
  norm_num [cosTwoPiDiv6]

theorem tukeyQuarterPeriodic_two : tukeyQuarterPeriodic 2 = [0, 1] := by
  unfold tukeyQuarterPeriodic tukeyQuarterSym
  rw [if_neg (by norm_num), if_neg (by norm_num), show List.range 3 = [0,1,2] from rfl]
  norm_num [mul_neg_one, Real.cos_neg, Real.cos_pi]

theorem tukeyQuarterPeriodic_four : tukeyQuarterPeriodic 4 = [0, 1, 1, 1] := by
  unfold tukeyQuarterPeriodic tukeyQuarterSym
  rw [if_neg (by norm_num), if_neg (by norm_num), show List.range 5 = [0,1,2,3,4] from rfl]
  norm_num [mul_neg_one, Real.cos_neg, Real.cos_pi]

/-! ### Concrete DFT evaluations -/

theorem dftAbsSq_v4_zero : dftAbsSq [0, 6, -2, -2] 0 = 4 := by
  unfold dftAbsSq dftRe dftIm
  norm_num [show List.range 4 = [0,1,2,3] from rfl, cosTwoPiDiv4, sinTwoPiDiv4]

theorem dftAbsSq_v4_one : dftAbsSq [0, 6, -2, -2] 1 = 68 := by
  unfold dftAbsSq dftRe dftIm
  norm_num [show List.range 4 = [0,1,2,3] from rfl, cosTwoPiDiv4, sinTwoPiDiv4]

theorem dftAbsSq_v4_two : dftAbsSq [0, 6, -2, -2] 2 = 36 := by
  unfold dftAbsSq dftRe dftIm
  norm_num [show List.range 4 = [0,1,2,3] from rfl, cosTwoPiDiv4, sinTwoPiDiv4]

theorem dftAbsSq_v6_zero : dftAbsSq [0, -(1/2), 1/2, 0, -(1/2), 1/2] 0 = 0 := by
  unfold dftAbsSq dftRe dftIm
  norm_num [show List.range 6 = [0,1,2,3,4,5] from rfl, cosTwoPiDiv6, sinTwoPiDiv6]

theorem dftAbsSq_v6_one : dftAbsSq [0, -(1/2), 1/2, 0, -(1/2), 1/2] 1 = 0 := by
  unfold dftAbsSq dftRe dftIm
  norm_num [show List.range 6 = [0,1,2,3,4,5] from rfl, cosTwoPiDiv6, sinTwoPiDiv6]

theorem dftAbsSq_v6_two : dftAbsSq [0, -(1/2), 1/2, 0, -(1/2), 1/2] 2 = 3 := by
  unfold dftAbsSq dftRe dftIm
  norm_num [show List.range 6 = [0,1,2,3,4,5] from rfl, cosTwoPiDiv6, sinTwoPiDiv6]
  nlinarith [Real.sq_sqrt (show (0:ℝ) ≤ 3 by norm_num)]

theorem dftAbsSq_v6_three : dftAbsSq [0, -(1/2), 1/2, 0, -(1/2), 1/2] 3 = 0 := by
  unfold dftAbsSq dftRe dftIm
  norm_num [show List.range 6 = [0,1,2,3,4,5] from rfl, cosTwoPiDiv6, sinTwoPiDiv6]

/-! ### Concrete PSD evaluations -/

theorem psd04_zero : psdAt (tukeyQuarterPeriodic 4) 4 4 [0, 8, 0, 0] 0 = 1/3 := by
  unfold psdAt onesidedFactor densityScale windowed detrendConstant npMean
  rw [tukeyQuarterPeriodic_four]
  norm_num [dftAbsSq_v4_zero]

theorem psd04_one : psdAt (tukeyQuarterPeriodic 4) 4 4 [0, 8, 0, 0] 1 = 34/3 := by
  unfold psdAt onesidedFactor densityScale windowed detrendConstant npMean
  rw [tukeyQuarterPeriodic_four]
  norm_num [dftAbsSq_v4_one]

theorem psd04_two : psdAt (tukeyQuarterPeriodic 4) 4 4 [0, 8, 0, 0] 2 = 3 := by
  unfold psdAt onesidedFactor densityScale windowed detrendConstant npMean
  rw [tukeyQuarterPeriodic_four]
  norm_num [dftAbsSq_v4_two]

theorem psd6_zero : psdAt (hannPeriodic 6) 6 6 [0, -2, 2/3, 0, -(2/3), 2] 0 = 0 := by
  unfold psdAt onesidedFactor densityScale windowed detrendConstant npMean
  rw [hannPeriodic_six]
  norm_num [dftAbsSq_v6_zero]

theorem psd6_one : psdAt (hannPeriodic 6) 6 6 [0, -2, 2/3, 0, -(2/3), 2] 1 = 0 := by
  unfold psdAt onesidedFactor densityScale windowed detrendConstant npMean
  rw [hannPeriodic_six]
  norm_num [dftAbsSq_v6_one]

theorem psd6_two : psdAt (hannPeriodic 6) 6 6 [0, -2, 2/3, 0, -(2/3), 2] 2 = 4/9 := by
  unfold psdAt onesidedFactor densityScale windowed detrendConstant npMean
  rw [hannPeriodic_six]
  norm_num [dftAbsSq_v6_two]

theorem psd6_three : psdAt (hannPeriodic 6) 6 6 [0, -2, 2/3, 0, -(2/3), 2] 3 = 0 := by
  unfold psdAt onesidedFactor densityScale windowed detrendConstant npMean
  rw [hannPeriodic_six]
  norm_num [dftAbsSq_v6_three]

theorem dftAbsSq_zeros4 (k : ℕ) : dftAbsSq [0,0,0,0] k = 0 := by
  unfold dftAbsSq dftRe dftIm
  norm_num [show List.range 4 = [0,1,2,3] from rfl]

theorem psdAt_zeros4 (k : ℕ) : psdAt (hannPeriodic 4) 4 4 [0,0,0,0] k = 0 := by
  unfold psdAt windowed detrendConstant npMean
  rw [hannPeriodic_four]
  norm_num [dftAbsSq_zeros4]

theorem dftAbsSq_zeros2 (k : ℕ) : dftAbsSq [0,0] k = 0 := by
  unfold dftAbsSq dftRe dftIm
  norm_num [show List.range 2 = [0,1] from rfl]

theorem psdAt_zeros2 (k : ℕ) : psdAt (tukeyQuarterPeriodic 2) 4 2 [0,0] k = 0 := by
  unfold psdAt windowed detrendConstant npMean
  rw [tukeyQuarterPeriodic_two]
  norm_num [dftAbsSq_zeros2]

/-! ### Concrete `welch` evaluations -/

theorem welch_zeros4 : welch [0,0,0,0] 4 4 = .ok ([0,1,2], [0,0,0]) := by
  unfold welch welchPSD rfftfreqs numSegments
  norm_num [show Int.toNat 4 = 4 from rfl, show List.range 3 = [0,1,2] from rfl,
    show List.range 1 = [0] from rfl,
    show segmentAt [(0:ℝ),0,0,0] 4 2 0 = [0,0,0,0] from rfl, psdAt_zeros4]

theorem welch_data6 :
    welch [0, -2, 2/3, 0, -(2/3), 2] 6 6 = .ok ([0, 1, 2, 3], [0, 0, 4/9, 0]) := by
  unfold welch welchPSD rfftfreqs numSegments
  norm_num [show Int.toNat 6 = 6 from rfl, show List.range 4 = [0,1,2,3] from rfl,
    show List.range 1 = [0] from rfl,
    show segmentAt [(0:ℝ), -2, 2/3, 0, -(2/3), 2] 6 3 0 = [0, -2, 2/3, 0, -(2/3), 2] from rfl,
    psd6_zero, psd6_one, psd6_two, psd6_three]

/-! ### Concrete `bandpower` evaluations -/

theorem bp_zeros4_full_abs :
    bandpower [0,0,0,0] 4 (0, 2) "welch" (some 1) false = .ok 0 := by
  unfold bandpower npersegOf
  norm_num [pyInt, welch_zeros4, bandSelect, simps, basicSimpson, List.filter,
    show List.range 1 = [0] from rfl]

theorem bp_zeros4_band_rel :
    bandpower [0,0,0,0] 4 (1/2, 2) "welch" (some 1) true = .ok 0 := by
  unfold bandpower npersegOf
  norm_num [pyInt, welch_zeros4, bandSelect, simps, basicSimpson, List.filter,
    show List.range 1 = [0] from rfl]

theorem bp_zeros4_bandB_abs :
    bandpower [0,0,0,0] 4 (1, 2) "welch" (some 1) false = .ok 0 := by
  unfold bandpower npersegOf
  norm_num [pyInt, welch_zeros4, bandSelect, simps, basicSimpson, List.filter,
    show List.range 1 = [0] from rfl]

theorem bp_data6_rel :
    bandpower [0, -2, 2/3, 0, -(2/3), 2] 6 (1, 3) "welch" (some 1) true = .ok (16/13) := by
  unfold bandpower npersegOf
  norm_num [pyInt, welch_data6, bandSelect, simps, basicSimpson, List.filter,
    show List.range 1 = [0] from rfl]

/-! ### Concrete `bandpower_in_periods` evaluations -/

theorem periods04_abs :
    bandpower_in_periods [0,8,0,0] 4 [("A",(0,1)),("B",(1,2))] 1 false =
      .ok [(1/2, 3/2, [("A", 35/6), ("B", 43/6)])] := by
  unfold bandpower_in_periods spectrogramModel windowBandPowers trapzPairs numSegments rfftfreqs
  norm_num [pyInt, show Int.toNat 4 = 4 from rfl, show List.range 1 = [0] from rfl,
    show List.range 3 = [0,1,2] from rfl, show List.range 2 = [0,1] from rfl, List.filter,
    show segmentAt [(0:ℝ),8,0,0] 4 4 0 = [0,8,0,0] from rfl,
    psd04_zero, psd04_one, psd04_two]

theorem periods_zeros2_bandX_abs :
    bandpower_in_periods [0,0] 4 [("X",(1000,2000))] 1 false = .ok [(1/4, 5/4, [("X", 0)])] := by
  unfold bandpower_in_periods spectrogramModel windowBandPowers trapzPairs numSegments rfftfreqs
  norm_num [pyInt, show Int.toNat 4 = 4 from rfl, show List.range 1 = [0] from rfl,
    show List.range 2 = [0,1] from rfl, List.filter,
    show segmentAt [(0:ℝ),0] 2 2 0 = [0,0] from rfl, psdAt_zeros2]

theorem periods_zeros2_bandA_abs :
    bandpower_in_periods [0,0] 4 [("A",(0,1))] 1 false = .ok [(1/4, 5/4, [("A", 0)])] := by
  unfold bandpower_in_periods spectrogramModel windowBandPowers trapzPairs numSegments rfftfreqs
  norm_num [pyInt, show Int.toNat 4 = 4 from rfl, show List.range 1 = [0] from rfl,
    show List.range 2 = [0,1] from rfl, List.filter,
    show segmentAt [(0:ℝ),0] 2 2 0 = [0,0] from rfl, psdAt_zeros2]

theorem periods16_starts :
    Except.map (fun l => List.map (fun (r : ℝ × ℝ × List (String × ℝ)) => (r.1, r.2.1)) l)
        (bandpower_in_periods (List.replicate 16 0) 8 [("A",(0,1))] 1 false) =
      .ok [(1/2, 3/2), (11/8, 19/8)] := by
  unfold bandpower_in_periods spectrogramModel numSegments
  norm_num [pyInt, show Int.toNat 8 = 8 from rfl, show List.range 2 = [0,1] from rfl,
    Except.map]

/-! ### Structural results -/

/-- The relative run of `bandpower_in_periods` is the absolute run with each
window's band powers divided by that window's own requested-bands total. -/
theorem periods_rel_of_abs (data : List ℝ) (sf : ℝ) (bands : List (String × (ℝ × ℝ)))
    (wsec : ℝ) (l : List (ℝ × ℝ × List (String × ℝ)))
    (h : bandpower_in_periods data sf bands wsec false = .ok l) :
    bandpower_in_periods data sf bands wsec true
      = .ok (l.map (fun r => (r.1, r.2.1, normalizePowers r.2.2))) := by
  unfold bandpower_in_periods at h ⊢
  cases hs : spectrogramModel data sf (pyInt (wsec * sf)) with
  | error e => rw [hs] at h; cases h
  | ok ftS =>
    obtain ⟨f, t, Sxx⟩ := ftS
    rw [hs] at h
    simp only [Except.ok.injEq] at h
    subst h
    simp [List.map_map, normalizePowers, Function.comp]

/-- C1: calling `bandpower` with the Multitaper method takes exactly the same
code path as Welch — the `method` argument is never read, so for every input
the two results coincide (refuting any multitaper-specific behaviour). -/
theorem C1_multitaper_is_welch_path (data : List ℝ) (sf : ℝ) (band : ℝ × ℝ)
    (wsec : Option ℝ) (relative : Bool) :
    bandpower data sf band "multitaper" wsec relative
      = bandpower data sf band "welch" wsec relative := rfl

/-- C9: with `window_sec` omitted, the default segment length is derived by
the unguarded division `2 / low`; for a band with `low = 0` the call raises
(`int()` of the non-finite quotient) instead of returning a band power. -/
theorem C9_default_window_low_zero_errors (data : List ℝ) (sf high : ℝ)
    (method : String) (relative : Bool) :
    bandpower data sf (0, high) method none relative = .error .overflowError := by
  unfold bandpower npersegOf
  simp

/-- C4: in the time-resolved path with `relative = true`, each window's
per-band power equals the absolute band power divided by that same window's
total over exactly the requested bands (computed before normalisation) -
not by a full-spectrum or global total. -/
theorem C4_window_normalized_by_requested_band_total (data : List ℝ) (sf : ℝ)
    (bands : List (String × (ℝ × ℝ))) (wsec : ℝ)
    (l : List (ℝ × ℝ × List (String × ℝ)))
    (h : bandpower_in_periods data sf bands wsec false = .ok l) :
    bandpower_in_periods data sf bands wsec true
      = .ok (l.map (fun r => (r.1, r.2.1,
          r.2.2.map (fun lp => (lp.1, lp.2 / (r.2.2.map Prod.snd).sum))))) := by
  have := periods_rel_of_abs data sf bands wsec l h
  simpa [normalizePowers] using this

/-- Witness for C4 at the concrete signal `[0,8,0,0]`, `sf = 4`, 1 s windows,
bands `A = [0,1]`, `B = [1,2]`: the window's absolute powers are
`35/6` and `43/6` (total `13`) and the relative run divides exactly by 13. -/
theorem C4_window_normalized_by_requested_band_total_witness :
    bandpower_in_periods [0,8,0,0] 4 [("A",(0,1)),("B",(1,2))] 1 true =
      .ok [(1/2, 3/2, [("A", 35/78), ("B", 43/78)])] := by
  have h := C4_window_normalized_by_requested_band_total [0,8,0,0] 4
    [("A",(0,1)),("B",(1,2))] 1 _ periods04_abs
  rw [h]
  norm_num

/-- Lengths of the two arrays returned by a successful `welch` call agree. -/
theorem welch_lengths (data : List ℝ) (fs : ℝ) (np : ℤ) (freqs psd : List ℝ)
    (h : welch data fs np = .ok (freqs, psd)) : psd.length = freqs.length := by
  unfold welch at h
  split_ifs at h with h1 h2
  · simp only [Except.ok.injEq, Prod.mk.injEq] at h
    rw [← h.1, ← h.2]
  · simp only [Except.ok.injEq, Prod.mk.injEq] at h
    rw [← h.1, ← h.2]
    simp [rfftfreqs, welchPSD]

/-- `simps` only fails on an empty array. -/
theorem simps_isOk (ys : List ℝ) (dx : ℝ) (h : ys.length ≠ 0) :
    ∃ v, simps ys dx = .ok v := by
  unfold simps
  rw [if_neg h]
  split_ifs <;> exact ⟨_, rfl⟩

/-- C3 counterexample: the all-zero signal has full-spectrum integral 0
(first conjunct), yet requesting relative power returns a value (the silent
IEEE quotient, modelled by total division) instead of raising a
`DivisionByZero` error (second conjunct). -/
theorem C3_counterexample_zero_total_is_silent :
    bandpower [0,0,0,0] 4 (0, 2) "welch" (some 1) false = .ok 0 ∧
    bandpower [0,0,0,0] 4 (1/2, 2) "welch" (some 1) true = .ok 0 :=
  ⟨bp_zeros4_full_abs, bp_zeros4_band_rel⟩

/-- C3 (amended): the relative-power normalisation never raises: whenever
the absolute computation succeeds, the relative computation also returns a
value — the division by the (possibly zero) total is performed silently
(NumPy float semantics: `nan`/`inf`, no exception), in both the whole-signal
and the time-resolved paths. -/
theorem C3_relative_division_never_raises :
    (∀ (data : List ℝ) (sf : ℝ) (band : ℝ × ℝ) (method : String) (wsec : Option ℝ) (bp : ℝ),
      bandpower data sf band method wsec false = .ok bp →
      ∃ r : ℝ, bandpower data sf band method wsec true = .ok r) ∧
    (∀ (data : List ℝ) (sf : ℝ) (bands : List (String × (ℝ × ℝ))) (wsec : ℝ)
      (l : List (ℝ × ℝ × List (String × ℝ))),
      bandpower_in_periods data sf bands wsec false = .ok l →
      ∃ lr, bandpower_in_periods data sf bands wsec true = .ok lr) := by
  constructor
  · intro data sf band method wsec bp h
    unfold bandpower at h ⊢
    cases hn : npersegOf sf band.1 wsec with
    | error e => rw [hn] at h; simp at h
    | ok np =>
      rw [hn] at h
      try dsimp only at h ⊢
      try dsimp only at h
      try dsimp only
      cases hw : welch data sf np with
      | error e => rw [hw] at h; simp at h
      | ok fp =>
        obtain ⟨freqs, psd⟩ := fp
        rw [hw] at h
        try dsimp only at h ⊢
        try dsimp only at h
        try dsimp only
        by_cases hlen : freqs.length < 2
        · rw [if_pos hlen] at h; simp at h
        · rw [if_neg hlen] at h ⊢
          try dsimp only at h ⊢
          try dsimp only at h
          try dsimp only
          cases hs : simps (bandSelect freqs psd band.1 band.2)
              (freqs.getD 1 0 - freqs.getD 0 0) with
          | error e => rw [hs] at h; simp at h
          | ok bp2 =>
            have hpsd : psd.length ≠ 0 := by
              rw [welch_lengths data sf np freqs psd hw]
              omega
            obtain ⟨tot, htot⟩ := simps_isOk psd (freqs.getD 1 0 - freqs.getD 0 0) hpsd
            refine ⟨bp2 / tot, ?_⟩
            rw [htot]
            simp
  · intro data sf bands wsec l h
    exact ⟨_, periods_rel_of_abs data sf bands wsec l h⟩

/-- Witness for C3 (amended): both implications applied at concrete inputs
with zero totals (zero signals), discharging the success hypotheses. -/
theorem C3_relative_division_never_raises_witness :
    (∃ r : ℝ, bandpower [0,0,0,0] 4 (1, 2) "welch" (some 1) true = .ok r) ∧
    (∃ lr, bandpower_in_periods [0,0] 4 [("A",(0,1))] 1 true = .ok lr) :=
  ⟨C3_relative_division_never_raises.1 [0,0,0,0] 4 (1, 2) "welch" (some 1) 0
      bp_zeros4_bandB_abs,
   C3_relative_division_never_raises.2 [0,0] 4 [("A",(0,1))] 1
      [(1/4, 5/4, [("A", 0)])] periods_zeros2_bandA_abs⟩

/-- C2 counterexample: for a 16-sample zero signal at `sf = 8` with 1 s
windows (`nperseg = 8`), the code emits windows whose starts are the scipy
segment centres `1/2` and `11/8` (segments overlap: step `7 = 8 - 8//8`),
not `segment_index * window_sec = 0` and `1`. -/
theorem C2_counterexample_starts_are_segment_centres :
    Except.map (fun l => List.map (fun (r : ℝ × ℝ × List (String × ℝ)) => (r.1, r.2.1)) l)
        (bandpower_in_periods (List.replicate 16 0) 8 [("A",(0,1))] 1 false) =
      .ok [(1/2, 3/2), (11/8, 19/8)] ∧ (1/2 : ℝ) ≠ 0 * 1 ∧ (11/8 : ℝ) ≠ 1 * 1 :=
  ⟨periods16_starts, by norm_num, by norm_num⟩

/-- C2 (amended): for a signal of at least one window (`nperseg = int(window_sec*sf)`
samples), `bandpower_in_periods` emits one TimeWindow per scipy spectrogram
segment; segments advance by `step = nperseg - nperseg//8` samples (so they
overlap by `nperseg//8`), there are `(N - nperseg//8) // step` of them, and
window `i` has `start = (nperseg/2 + i*step)/sf` (the segment centre) and
`end = start + window_sec`. -/
theorem C2_overlapping_segment_grid (data : List ℝ) (sf wsec : ℝ)
    (bands : List (String × (ℝ × ℝ))) (relative : Bool)
    (hnp : 1 ≤ pyInt (wsec * sf))
    (hlen : (pyInt (wsec * sf)).toNat ≤ data.length) :
    ∃ l, bandpower_in_periods data sf bands wsec relative = .ok l ∧
      l.length = numSegments data.length ((pyInt (wsec * sf)).toNat/8)
        ((pyInt (wsec * sf)).toNat - (pyInt (wsec * sf)).toNat/8) ∧
      ∀ i, ∀ hi : i < l.length,
        (l.get ⟨i, hi⟩).1 =
          (((pyInt (wsec * sf)).toNat : ℝ)/2
            + (i : ℝ)*((((pyInt (wsec * sf)).toNat - (pyInt (wsec * sf)).toNat/8 : ℕ)) : ℝ))/sf ∧
        (l.get ⟨i, hi⟩).2.1 = (l.get ⟨i, hi⟩).1 + wsec := by
  unfold bandpower_in_periods spectrogramModel
  have h0 : ¬ (pyInt (wsec * sf) < 0) := by omega
  have h1 : 1 ≤ (pyInt (wsec * sf)).toNat := by omega
  have h2 : ¬ (data.length = 0) := by omega
  have h3 : ¬ (pyInt (wsec * sf) = 0) := by omega
  rw [if_neg h0, if_neg h2, if_neg h3, Nat.min_eq_left hlen]
  refine ⟨_, rfl, by simp, ?_⟩
  intro i hi
  simp only [List.length_map, List.length_range] at hi
  simp [List.get_eq_getElem, List.getElem_map, List.getElem_range, List.getD_eq_getElem?_getD,
    List.getElem?_map, List.getElem?_range, hi]

/-- Witness for C2 (amended) at the 16-sample zero signal, `sf = 8`,
`window_sec = 1`: two overlapping windows with starts `1/2` and `11/8`. -/
theorem C2_overlapping_segment_grid_witness :
    ∃ l, bandpower_in_periods (List.replicate 16 0) 8 [("A",(0,1))] 1 false = .ok l ∧
      l.length = 2 ∧
      ∀ i, ∀ hi : i < l.length,
        (l.get ⟨i, hi⟩).1 = ((8 : ℝ)/2 + (i : ℝ)*7)/8 ∧
        (l.get ⟨i, hi⟩).2.1 = (l.get ⟨i, hi⟩).1 + 1 := by
  have hp : pyInt ((1 : ℝ) * 8) = 8 := by norm_num [pyInt]
  obtain ⟨l, h1, h2, h3⟩ := C2_overlapping_segment_grid (List.replicate 16 0) 8 1
    [("A",(0,1))] false (by rw [hp]; norm_num) (by rw [hp]; simp)
  refine ⟨l, h1, ?_, ?_⟩
  · rw [h2, hp]
    norm_num [numSegments, show Int.toNat 8 = 8 from rfl]
  · intro i hi
    have h4 := h3 i hi
    rw [hp] at h4
    simpa [show Int.toNat 8 = 8 from rfl] using h4

/-- C6 counterexample: the 2-sample zero signal is shorter than the
requested 4-sample window (`int(1*4)`), yet the code returns one TimeWindow
(scipy clamps `nperseg` to the signal length) — not an empty sequence. -/
theorem C6_counterexample_short_signal_not_empty :
    List.length [(0:ℝ), 0] < (pyInt ((1:ℝ) * 4)).toNat ∧
    bandpower_in_periods [0,0] 4 [("A",(0,1))] 1 false = .ok [(1/4, 5/4, [("A", 0)])] ∧
    ([(1/4, 5/4, [("A", (0:ℝ))])] : List (ℝ × ℝ × List (String × ℝ))) ≠ [] := by
  refine ⟨by norm_num [pyInt], periods_zeros2_bandA_abs, by simp⟩

/-- C6 (amended): only an empty signal produces an empty sequence; a
non-empty signal shorter than one window is clamped (`nperseg` becomes the
signal length) and produces exactly one TimeWindow, with no error raised. -/
theorem C6_short_signal_clamps_to_one_window (data : List ℝ) (sf wsec : ℝ)
    (bands : List (String × (ℝ × ℝ))) (relative : Bool) :
    (data.length = 0 → 0 ≤ pyInt (wsec * sf) →
      bandpower_in_periods data sf bands wsec relative = .ok []) ∧
    (0 < data.length → (data.length : ℤ) < pyInt (wsec * sf) →
      ∃ l, bandpower_in_periods data sf bands wsec relative = .ok l ∧ l.length = 1) := by
  constructor
  · intro h0 hnp
    unfold bandpower_in_periods spectrogramModel
    rw [if_neg (by omega), if_pos h0]
    simp
  · intro h0 hlt
    unfold bandpower_in_periods spectrogramModel
    have hnp0 : ¬ (pyInt (wsec * sf) < 0) := by omega
    have hne : ¬ (data.length = 0) := by omega
    have hne2 : ¬ (pyInt (wsec * sf) = 0) := by omega
    rw [if_neg hnp0, if_neg hne, if_neg hne2]
    have hmin : min (pyInt (wsec * sf)).toNat data.length = data.length := by omega
    rw [hmin]
    refine ⟨_, rfl, ?_⟩
    simp only [List.length_map, List.length_range, numSegments]
    have hstep : 0 < data.length - data.length/8 := by omega
    exact Nat.div_self hstep

/-- Witness for C6 (amended): the empty signal gives an empty sequence; the
2-sample signal with a 4-sample window gives exactly one window. -/
theorem C6_short_signal_clamps_to_one_window_witness :
    bandpower_in_periods [] 4 [("A",(0,1))] 1 false = .ok [] ∧
    ∃ l, bandpower_in_periods [0,0] 4 [("A",(0,1))] 1 false = .ok l ∧ l.length = 1 :=
  ⟨(C6_short_signal_clamps_to_one_window [] 4 1 [("A",(0,1))] false).1 rfl
      (by norm_num [pyInt]),
   (C6_short_signal_clamps_to_one_window [0,0] 4 1 [("A",(0,1))] false).2
      (by norm_num) (by norm_num [pyInt])⟩

/-- Every frequency bin of `rfftfreq` lies in `[0, fs/2]`. -/
theorem rfftfreqs_mem_bounds (fs : ℝ) (n : ℕ) (hfs : 0 < fs) :
    ∀ f ∈ rfftfreqs fs n, 0 ≤ f ∧ f ≤ fs/2 := by
  intro f hf
  simp only [rfftfreqs, List.mem_map, List.mem_range] at hf
  obtain ⟨k, hk, rfl⟩ := hf
  have hk2 : 2*k ≤ n := by
    have : k ≤ n/2 := by omega
    omega
  constructor
  · positivity
  · rcases Nat.eq_zero_or_pos n with hn | hn
    · subst hn
      simp [hfs.le]
      positivity
    · rw [div_le_div_iff₀ (by exact_mod_cast hn) (by norm_num)]
      have : (2*k : ℝ) ≤ (n : ℝ) := by exact_mod_cast hk2
      nlinarith

/-- A band lying entirely above every frequency bin selects nothing. -/
theorem bandSelect_nil_of_above (freqs psd : List ℝ) (low high : ℝ)
    (h : ∀ f ∈ freqs, ¬ (low ≤ f)) : bandSelect freqs psd low high = [] := by
  unfold bandSelect
  have : (freqs.zip psd).filter (fun p => decide (low ≤ p.1 ∧ p.1 ≤ high)) = [] := by
    rw [List.filter_eq_nil_iff]
    intro p hp
    have hmem := (List.of_mem_zip hp).1
    simp only [decide_eq_true_eq, not_and]
    intro hlow
    exact absurd hlow (h p.1 hmem)
  rw [this, List.map_nil]

/-- C7 counterexample: a band entirely above the spectrum (`[1000, 2000]`
against bins `[0,1,2]`) makes the whole-signal path integrate an empty
selection, and `scipy.integrate.simps` raises `IndexError` on an empty
array — the call errors instead of returning zero power. -/
theorem C7_counterexample_empty_selection_raises :
    bandpower [0,0,0,0] 4 (1000, 2000) "welch" (some 1) false = .error .indexError := by
  unfold bandpower npersegOf
  norm_num [pyInt, welch_zeros4, bandSelect, simps, basicSimpson, List.filter,
    show List.range 1 = [0] from rfl]

/-- C7 (amended): an empty band selection yields zero power without error in
the time-resolved path (`np.trapz` of an empty array is `0.0`), but in the
whole-signal path `simps` of the empty selection raises an `IndexError`. -/
theorem C7_empty_selection_zero_only_in_periods :
    (∀ (f : List ℝ) (Sxx : ℕ → ℕ → ℝ) (bands : List (String × (ℝ × ℝ))) (i j : ℕ)
      (hj : j < bands.length),
      (∀ k, k < f.length → ¬ ((bands.get ⟨j, hj⟩).2.1 ≤ f.getD k 0)) →
      (windowBandPowers f Sxx bands i).getD j ("", 0) = ((bands.get ⟨j, hj⟩).1, 0)) ∧
    (∀ (data : List ℝ) (sf low high wsec : ℝ) (method : String) (relative : Bool),
      0 < sf → 2 ≤ min (pyInt (wsec * sf)).toNat data.length → sf/2 < low →
      bandpower data sf (low, high) method (some wsec) relative = .error .indexError) := by
  constructor
  · intro f Sxx bands i j hj hout
    unfold windowBandPowers
    rw [List.getD_eq_getElem?_getD, List.getElem?_map]
    have hj2 : bands[j]? = some (bands.get ⟨j, hj⟩) := by
      rw [List.getElem?_eq_getElem hj]
      simp
    rw [hj2]
    simp only [Option.map_some', Option.getD_some]
    have hfilter : (List.range f.length).filter
        (fun k => decide ((bands.get ⟨j, hj⟩).2.1 ≤ f.getD k 0
          ∧ f.getD k 0 ≤ (bands.get ⟨j, hj⟩).2.2)) = [] := by
      rw [List.filter_eq_nil_iff]
      intro k hk
      simp only [List.mem_range] at hk
      simp only [decide_eq_true_eq, not_and]
      intro hlow
      exact absurd hlow (hout k hk)
    rw [hfilter]
    try simp [trapzPairs]
  · intro data sf low high wsec method relative hsf hmin hlow
    unfold bandpower npersegOf welch
    dsimp only
    have hlen : data.length ≠ 0 := by omega
    have hnp : ¬ (pyInt (wsec * sf) < 1) := by omega
    rw [if_neg hlen, if_neg hnp]
    try dsimp only
    have hfreqlen : ¬ ((rfftfreqs sf (min (pyInt (wsec * sf)).toNat data.length)).length < 2) := by
      simp only [rfftfreqs, List.length_map, List.length_range]
      omega
    rw [if_neg hfreqlen]
    have hsel : bandSelect (rfftfreqs sf (min (pyInt (wsec * sf)).toNat data.length))
        (welchPSD data sf (min (pyInt (wsec * sf)).toNat data.length)) low high = [] := by
      apply bandSelect_nil_of_above
      intro f hf
      have hb := (rfftfreqs_mem_bounds sf _ hsf f hf).2
      linarith
    rw [hsel]
    simp [simps]

/-- Witness for C7 (amended): band `[1000, 2000]` over bins `[0, 2]` in the
time-resolved integration gives power 0; band `[500, 600]` in the
whole-signal path raises `IndexError`. -/
theorem C7_empty_selection_zero_only_in_periods_witness :
    (windowBandPowers [0, 2] (fun _ _ => 5) [("X",(1000,2000))] 0).getD 0 ("", 0) = ("X", 0) ∧
    bandpower [0,8,0,0] 4 (500, 600) "welch" (some 1) false = .error .indexError := by
  constructor
  · exact C7_empty_selection_zero_only_in_periods.1 [0, 2] (fun _ _ => 5)
      [("X",(1000,2000))] 0 0 (by norm_num)
      (by intro k hk; simp only [List.length_cons, List.length_nil] at hk; interval_cases k <;> norm_num [List.getD])
  · exact C7_empty_selection_zero_only_in_periods.2 [0,8,0,0] 4 500 600 1 "welch" false
      (by norm_num) (by norm_num [pyInt, show Int.toNat 4 = 4 from rfl]) (by norm_num)

/-- Inversion for a successful `welch` call with a non-trivial spectrum. -/
theorem welch_ok_inv (data : List ℝ) (fs : ℝ) (np : ℤ) (freqs psd : List ℝ)
    (h : welch data fs np = .ok (freqs, psd)) (hne : freqs.length ≠ 0) :
    freqs = rfftfreqs fs (min np.toNat data.length)
      ∧ psd = welchPSD data fs (min np.toNat data.length) := by
  unfold welch at h
  split_ifs at h with h1 h2
  · simp only [Except.ok.injEq, Prod.mk.injEq] at h
    rw [← h.1] at hne
    simp at hne
  · simp only [Except.ok.injEq, Prod.mk.injEq] at h
    exact ⟨h.1.symm, h.2.symm⟩

/-- The band `[0, fs/2]` selects every PSD bin. -/
theorem bandSelect_full (fs : ℝ) (n : ℕ) (psd : List ℝ) (hfs : 0 < fs)
    (hlen : psd.length = (rfftfreqs fs n).length) :
    bandSelect (rfftfreqs fs n) psd 0 (fs/2) = psd := by
  unfold bandSelect
  have hfil : ((rfftfreqs fs n).zip psd).filter (fun p => decide (0 ≤ p.1 ∧ p.1 ≤ fs/2))
      = (rfftfreqs fs n).zip psd := by
    rw [List.filter_eq_self]
    intro p hp
    have hmem := (List.of_mem_zip hp).1
    simp only [decide_eq_true_eq]
    exact rfftfreqs_mem_bounds fs n hfs p.1 hmem
  rw [hfil]
  exact List.map_snd_zip _ _ (le_of_eq hlen)

/-- Inversion for a successful absolute `bandpower` run with an explicit
window length. -/
theorem bandpower_abs_inv (data : List ℝ) (sf low high : ℝ) (method : String)
    (w : ℝ) (a : ℝ)
    (h : bandpower data sf (low, high) method (some w) false = .ok a) :
    ∃ freqs psd, welch data sf (pyInt (w * sf)) = .ok (freqs, psd) ∧
      ¬ freqs.length < 2 ∧
      simps (bandSelect freqs psd low high) (freqs.getD 1 0 - freqs.getD 0 0) = .ok a := by
  unfold bandpower npersegOf at h
  try dsimp only at h
  cases hw : welch data sf (pyInt (w * sf)) with
  | error e =>
    try rw [hw] at h
    simp at h
  | ok fp =>
    obtain ⟨freqs, psd⟩ := fp
    try rw [hw] at h
    try dsimp only at h
    by_cases hlen : freqs.length < 2
    · rw [if_pos hlen] at h
      simp at h
    · rw [if_neg hlen] at h
      try dsimp only at h
      cases hs : simps (bandSelect freqs psd low high)
          (freqs.getD 1 0 - freqs.getD 0 0) with
      | error e =>
        try rw [hs] at h
        simp at h
      | ok bp =>
        try rw [hs] at h
        simp at h
        exact ⟨freqs, psd, rfl, hlen, h ▸ hs⟩

/-- Forward evaluation of a relative `bandpower` run from its pieces. -/
theorem bandpower_rel_eval (data : List ℝ) (sf low high : ℝ) (method : String)
    (w : ℝ) (freqs psd : List ℝ) (bp tot : ℝ)
    (hw : welch data sf (pyInt (w * sf)) = .ok (freqs, psd))
    (hlen : ¬ freqs.length < 2)
    (hbp : simps (bandSelect freqs psd low high) (freqs.getD 1 0 - freqs.getD 0 0) = .ok bp)
    (htot : simps psd (freqs.getD 1 0 - freqs.getD 0 0) = .ok tot) :
    bandpower data sf (low, high) method (some w) true = .ok (bp / tot) := by
  unfold bandpower npersegOf
  try dsimp only
  rw [hw]
  try dsimp only
  rw [if_neg hlen]
  try dsimp only
  rw [hbp]
  try dsimp only
  rw [htot]
  simp

/-- C5: for every signal and band, with the same estimation parameters, the
relative band power equals the absolute band power divided by the absolute
power over the full frequency range `[0, sf/2]` of the spectrum (exactly,
over the reals - the model's counterpart of floating-point tolerance). -/
theorem C5_relative_is_ratio_of_absolutes (data : List ℝ) (sf : ℝ) (low high : ℝ)
    (method : String) (wsec : Option ℝ) (a t : ℝ)
    (hsf : 0 < sf)
    (ha : bandpower data sf (low, high) method wsec false = .ok a)
    (ht : bandpower data sf (0, sf/2) method wsec false = .ok t) :
    bandpower data sf (low, high) method wsec true = .ok (a / t) := by
  cases wsec with
  | none =>
    unfold bandpower npersegOf at ht
    simp at ht
  | some w =>
    obtain ⟨freqs, psd, hw, hlen, hbp⟩ := bandpower_abs_inv data sf low high method w a ha
    obtain ⟨freqs2, psd2, hw2, hlen2, htot⟩ := bandpower_abs_inv data sf 0 (sf/2) method w t ht
    rw [hw] at hw2
    simp only [Except.ok.injEq, Prod.mk.injEq] at hw2
    obtain ⟨hf, hp⟩ := hw2
    subst hf
    subst hp
    obtain ⟨hfr, hpsd⟩ := welch_ok_inv data sf (pyInt (w * sf)) freqs psd hw (by omega)
    have hfull : bandSelect freqs psd 0 (sf/2) = psd := by
      rw [hfr, hpsd]
      apply bandSelect_full sf _ _ hsf
      rw [← hfr, ← hpsd]
      exact welch_lengths data sf (pyInt (w * sf)) freqs psd hw
    rw [hfull] at htot
    exact bandpower_rel_eval data sf low high method w freqs psd a t hw hlen hbp htot

/-- Witness for C5 at the all-zero 4-sample signal, `sf = 4`, band `[1,2]`:
both absolute powers are 0 and the relative result is `0/0 = 0` (the model's
total division). -/
theorem C5_relative_is_ratio_of_absolutes_witness :
    bandpower [0,0,0,0] 4 (1, 2) "welch" (some 1) true = .ok 0 := by
  have h := C5_relative_is_ratio_of_absolutes [0,0,0,0] 4 1 2 "welch" (some 1) 0 0
    (by norm_num) bp_zeros4_bandB_abs
    (by
      have h4 : (4:ℝ)/2 = 2 := by norm_num
      rw [h4]
      exact bp_zeros4_full_abs)
  simpa using h

/-- `getD` with default 0 of a list of non-negative values is non-negative. -/
theorem getD_nonneg (ys : List ℝ) (n : ℕ) (h : ∀ x ∈ ys, 0 ≤ x) : 0 ≤ ys.getD n 0 := by
  by_cases hn : n < ys.length
  · rw [List.getD_eq_getElem ys 0 hn]
    exact h _ (List.getElem_mem hn)
  · rw [List.getD_eq_default ys 0 (by omega)]

/-- `_basic_simpson` of non-negative samples with non-negative spacing. -/
theorem basicSimpson_nonneg (ys : List ℝ) (s c : ℕ) (dx : ℝ)
    (hy : ∀ x ∈ ys, 0 ≤ x) (hdx : 0 ≤ dx) : 0 ≤ basicSimpson ys s c dx := by
  unfold basicSimpson
  apply List.sum_nonneg
  intro x hx
  simp only [List.mem_map, List.mem_range] at hx
  obtain ⟨j, hj, rfl⟩ := hx
  have h1 := getD_nonneg ys (s + 2*j) hy
  have h2 := getD_nonneg ys (s + 2*j + 1) hy
  have h3 := getD_nonneg ys (s + 2*j + 2) hy
  positivity

/-- One trapezoid correction term of the even-length Simpson average. -/
theorem simps_trapTerm_nonneg (ys : List ℝ) (dx : ℝ) (i j : ℕ)
    (hy : ∀ x ∈ ys, 0 ≤ x) (hdx : 0 ≤ dx) :
    0 ≤ dx/2 * (ys.getD i 0 + ys.getD j 0) := by
  have g1 := getD_nonneg ys i hy
  have g2 := getD_nonneg ys j hy
  apply mul_nonneg (by linarith) (by linarith)

/-- A successful `simps` of non-negative samples is non-negative. -/
theorem simps_nonneg (ys : List ℝ) (dx : ℝ) (v : ℝ)
    (hy : ∀ x ∈ ys, 0 ≤ x) (hdx : 0 ≤ dx) (h : simps ys dx = .ok v) : 0 ≤ v := by
  unfold simps at h
  split_ifs at h with h1 h2
  all_goals simp only [Except.ok.injEq] at h
  all_goals subst h
  all_goals have b0 := basicSimpson_nonneg ys 0 ((ys.length - 1)/2) dx hy hdx
  all_goals have b1 := basicSimpson_nonneg ys 0 ((ys.length - 2)/2) dx hy hdx
  all_goals have b2 := basicSimpson_nonneg ys 1 ((ys.length - 2)/2) dx hy hdx
  all_goals have t1 := simps_trapTerm_nonneg ys dx (ys.length - 1) (ys.length - 2) hy hdx
  all_goals have t2 := simps_trapTerm_nonneg ys dx 0 1 hy hdx
  all_goals linarith

/-- Every per-segment PSD value is non-negative for a positive sampling
frequency (it is a scaled squared DFT magnitude). -/
theorem psdAt_nonneg (win : List ℝ) (fs : ℝ) (nfft : ℕ) (seg : List ℝ) (k : ℕ)
    (hfs : 0 < fs) : 0 ≤ psdAt win fs nfft seg k := by
  unfold psdAt onesidedFactor densityScale dftAbsSq
  have hsum : 0 ≤ (win.map (fun w => w^2)).sum := by
    apply List.sum_nonneg
    intro x hx
    simp only [List.mem_map] at hx
    obtain ⟨w, hw, rfl⟩ := hx
    positivity
  have hscale : 0 ≤ 1/(fs * (win.map (fun w => w^2)).sum) := by positivity
  have habs : 0 ≤ dftRe (windowed win (detrendConstant seg)) k ^ 2
      + dftIm (windowed win (detrendConstant seg)) k ^ 2 := by positivity
  split_ifs <;> positivity

/-- Every entry of the Welch PSD vector is non-negative. -/
theorem welchPSD_nonneg (data : List ℝ) (fs : ℝ) (n : ℕ) (hfs : 0 < fs) :
    ∀ x ∈ welchPSD data fs n, 0 ≤ x := by
  intro x hx
  unfold welchPSD at hx
  simp only [List.mem_map, List.mem_range] at hx
  obtain ⟨k, hk, rfl⟩ := hx
  apply div_nonneg
  · apply List.sum_nonneg
    intro y hy
    simp only [List.mem_map, List.mem_range] at hy
    obtain ⟨i, hi, rfl⟩ := hy
    exact psdAt_nonneg _ fs n _ k hfs
  · positivity

/-- Values selected by `bandSelect` are PSD values. -/
theorem bandSelect_subset (freqs psd : List ℝ) (low high : ℝ) :
    ∀ x ∈ bandSelect freqs psd low high, x ∈ psd := by
  intro x hx
  unfold bandSelect at hx
  simp only [List.mem_map] at hx
  obtain ⟨p, hp, rfl⟩ := hx
  exact (List.of_mem_zip (List.mem_of_mem_filter hp)).2

/-- `rfftfreq` bins by index. -/
theorem rfftfreqs_getD (fs : ℝ) (n k : ℕ) (h : k < n/2 + 1) :
    (rfftfreqs fs n).getD k 0 = k*fs/n := by
  unfold rfftfreqs
  rw [List.getD_eq_getElem _ _ (by simpa using h)]
  simp

/-- Inversion for a successful relative `bandpower` run. -/
theorem bandpower_rel_inv (data : List ℝ) (sf low high : ℝ) (method : String)
    (wsec : Option ℝ) (r : ℝ)
    (h : bandpower data sf (low, high) method wsec true = .ok r) :
    ∃ np freqs psd bp tot,
      npersegOf sf low wsec = .ok np ∧
      welch data sf np = .ok (freqs, psd) ∧ ¬ freqs.length < 2 ∧
      simps (bandSelect freqs psd low high) (freqs.getD 1 0 - freqs.getD 0 0) = .ok bp ∧
      simps psd (freqs.getD 1 0 - freqs.getD 0 0) = .ok tot ∧ r = bp / tot := by
  unfold bandpower at h
  cases hn : npersegOf sf (low, high).1 wsec with
  | error e =>
    try rw [hn] at h
    simp at h
  | ok np =>
    try rw [hn] at h
    try dsimp only at h
    cases hw : welch data sf np with
    | error e =>
      try rw [hw] at h
      simp at h
    | ok fp =>
      obtain ⟨freqs, psd⟩ := fp
      try rw [hw] at h
      try dsimp only at h
      by_cases hlen : freqs.length < 2
      · rw [if_pos hlen] at h
        simp at h
      · rw [if_neg hlen] at h
        try dsimp only at h
        cases hs : simps (bandSelect freqs psd low high)
            (freqs.getD 1 0 - freqs.getD 0 0) with
        | error e =>
          try rw [hs] at h
          simp at h
        | ok bp =>
          try rw [hs] at h
          try dsimp only at h
          cases hs2 : simps psd (freqs.getD 1 0 - freqs.getD 0 0) with
          | error e =>
            try rw [hs2] at h
            simp at h
          | ok tot =>
            try rw [hs2] at h
            simp at h
            exact ⟨np, freqs, psd, bp, tot, rfl, hw, hlen, hs, hs2, h.symm⟩

/-- C8 counterexample: for the 6-sample signal `[0,-2,2/3,0,-2/3,2]` at
`sf = 6` with a 1 s window, band `[1,3]`, the relative band power is
`16/13 > 1`: the even-length `simps` average weights the selected bins more
heavily than the full spectrum, so the ratio is not bounded by 1. -/
theorem C8_counterexample_relative_exceeds_one :
    bandpower [0, -2, 2/3, 0, -(2/3), 2] 6 (1, 3) "welch" (some 1) true = .ok (16/13) ∧
    ¬ ((16:ℝ)/13 ≤ 1) :=
  ⟨bp_data6_rel, by norm_num⟩

/-- C8 (amended): for every well-formed input the relative band power is a
non-negative dimensionless ratio; it is however not guaranteed to be at most
1 (the counterexample attains 16/13). -/
theorem C8_relative_power_nonneg (data : List ℝ) (sf low high : ℝ) (method : String)
    (wsec : Option ℝ) (r : ℝ) (hsf : 0 < sf)
    (h : bandpower data sf (low, high) method wsec true = .ok r) : 0 ≤ r := by
  obtain ⟨np, freqs, psd, bp, tot, hn, hw, hlen, hbp, htot, hr⟩ :=
    bandpower_rel_inv data sf low high method wsec r h
  obtain ⟨hfr, hpsdeq⟩ := welch_ok_inv data sf np freqs psd hw (by omega)
  have hflen : freqs.length = (min np.toNat data.length)/2 + 1 := by
    rw [hfr]
    simp [rfftfreqs]
  have hdx : 0 ≤ freqs.getD 1 0 - freqs.getD 0 0 := by
    rw [hfr, rfftfreqs_getD sf _ 1 (by omega), rfftfreqs_getD sf _ 0 (by omega)]
    have : (0:ℝ) ≤ sf / (min np.toNat data.length : ℝ) := by positivity
    simpa using this
  have hpsd_nonneg : ∀ x ∈ psd, 0 ≤ x := by
    rw [hpsdeq]
    exact welchPSD_nonneg data sf _ hsf
  have hbp_nonneg : 0 ≤ bp :=
    simps_nonneg _ _ _ (fun x hx => hpsd_nonneg x (bandSelect_subset freqs psd low high x hx))
      hdx hbp
  have htot_nonneg : 0 ≤ tot := simps_nonneg _ _ _ hpsd_nonneg hdx htot
  rw [hr]
  exact div_nonneg hbp_nonneg htot_nonneg

/-- Witness for C8 (amended) at the counterexample input: `0 ≤ 16/13`. -/
theorem C8_relative_power_nonneg_witness : (0:ℝ) ≤ 16/13 :=
  C8_relative_power_nonneg [0, -2, 2/3, 0, -(2/3), 2] 6 1 3 "welch" (some 1) (16/13)
    (by norm_num) bp_data6_rel

/-- `np.trapz` over pairs with non-decreasing abscissae and non-negative
ordinates is non-negative. -/
theorem trapzPairs_nonneg (ps : List (ℝ × ℝ))
    (hx : ∀ j, j + 1 < ps.length → (ps.getD j (0,0)).1 ≤ (ps.getD (j+1) (0,0)).1)
    (hy : ∀ p ∈ ps, 0 ≤ p.2) :
    0 ≤ trapzPairs ps := by
  unfold trapzPairs
  apply List.sum_nonneg
  intro x hxx
  simp only [List.mem_map, List.mem_range] at hxx
  obtain ⟨j, hj, rfl⟩ := hxx
  have hj1 : j + 1 < ps.length := by omega
  have h1 := hx j hj1
  have h2 : 0 ≤ (ps.getD j (0,0)).2 := by
    have hm : ps.getD j (0,0) ∈ ps := by
      rw [List.getD_eq_getElem _ _ (by omega)]
      exact List.getElem_mem _
    exact hy _ hm
  have h3 : 0 ≤ (ps.getD (j+1) (0,0)).2 := by
    have hm : ps.getD (j+1) (0,0) ∈ ps := by
      rw [List.getD_eq_getElem _ _ hj1]
      exact List.getElem_mem _
    exact hy _ hm
  apply div_nonneg _ (by norm_num)
  apply mul_nonneg (by linarith) (by linarith)

/-- Consecutive entries of a filtered range are strictly increasing. -/
theorem filter_range_getD_lt (n : ℕ) (p : ℕ → Bool) (j : ℕ)
    (hj : j + 1 < ((List.range n).filter p).length) :
    ((List.range n).filter p).getD j 0 < ((List.range n).filter p).getD (j+1) 0 := by
  have hp : ((List.range n).filter p).Pairwise (· < ·) :=
    (List.pairwise_lt_range n).filter p
  rw [List.pairwise_iff_get] at hp
  have h := hp ⟨j, by omega⟩ ⟨j+1, hj⟩ (by simp)
  rw [List.getD_eq_getElem _ _ (by omega), List.getD_eq_getElem _ _ hj]
  simpa using h

/-- Entries of a filtered range are below the bound. -/
theorem filter_range_getD_bound (n : ℕ) (p : ℕ → Bool) (j : ℕ)
    (hj : j < ((List.range n).filter p).length) :
    ((List.range n).filter p).getD j 0 < n := by
  have hm : ((List.range n).filter p).getD j 0 ∈ (List.range n).filter p := by
    rw [List.getD_eq_getElem _ _ hj]
    exact List.getElem_mem _
  have := List.mem_of_mem_filter hm
  simpa using this

/-- Length of the `rfftfreq` grid. -/
theorem rfftfreqs_length (fs : ℝ) (n : ℕ) : (rfftfreqs fs n).length = n/2 + 1 := by
  simp [rfftfreqs]

/-- Every per-window band power computed against the `rfftfreq` grid from
non-negative spectrogram values is non-negative. -/
theorem windowBandPowers_nonneg (sf : ℝ) (np2 : ℕ) (Sxx : ℕ → ℕ → ℝ)
    (bands : List (String × (ℝ × ℝ))) (i : ℕ)
    (hsf : 0 < sf) (hS : ∀ k, 0 ≤ Sxx k i) :
    ∀ p ∈ windowBandPowers (rfftfreqs sf np2) Sxx bands i, 0 ≤ p.2 := by
  intro p hp
  unfold windowBandPowers at hp
  simp only [List.mem_map] at hp
  obtain ⟨b, hb, rfl⟩ := hp
  dsimp only
  set f := rfftfreqs sf np2 with hf
  set ks := (List.range f.length).filter
    (fun k => decide (b.2.1 ≤ f.getD k 0 ∧ f.getD k 0 ≤ b.2.2)) with hks
  apply trapzPairs_nonneg
  · intro j hj
    rw [List.length_map] at hj
    have hj0 : j < ks.length := by omega
    have e1 : (ks.map (fun k => (f.getD k 0, Sxx k i))).getD j (0,0)
        = (f.getD (ks.getD j 0) 0, Sxx (ks.getD j 0) i) := by
      rw [List.getD_eq_getElem _ _ (by simpa using hj0), List.getElem_map,
        List.getD_eq_getElem _ _ hj0]
    have e2 : (ks.map (fun k => (f.getD k 0, Sxx k i))).getD (j+1) (0,0)
        = (f.getD (ks.getD (j+1) 0) 0, Sxx (ks.getD (j+1) 0) i) := by
      rw [List.getD_eq_getElem _ _ (by simpa using hj), List.getElem_map,
        List.getD_eq_getElem _ _ hj]
    rw [e1, e2]
    dsimp only
    have hlt : ks.getD j 0 < ks.getD (j+1) 0 := by
      rw [hks]
      exact filter_range_getD_lt _ _ j (by rw [← hks]; exact hj)
    have hb1 : ks.getD j 0 < f.length := by
      rw [hks]
      exact filter_range_getD_bound _ _ j (by rw [← hks]; exact hj0)
    have hb2 : ks.getD (j+1) 0 < f.length := by
      rw [hks]
      exact filter_range_getD_bound _ _ (j+1) (by rw [← hks]; exact hj)
    rw [hf] at hb1 hb2 ⊢
    rw [rfftfreqs_length] at hb1 hb2
    rw [rfftfreqs_getD sf np2 _ hb1, rfftfreqs_getD sf np2 _ hb2]
    have hcast : ((ks.getD j 0 : ℕ) : ℝ) ≤ ((ks.getD (j+1) 0 : ℕ) : ℝ) := by
      exact_mod_cast hlt.le
    rcases Nat.eq_zero_or_pos np2 with h0 | h0
    · subst h0
      norm_num
    · have hnp2 : (0:ℝ) < (np2 : ℝ) := by exact_mod_cast h0
      rw [div_le_div_iff_of_pos_right hnp2]
      exact mul_le_mul_of_nonneg_right hcast hsf.le
  · intro q hq
    simp only [List.mem_map] at hq
    obtain ⟨k, hk, rfl⟩ := hq
    exact hS k

/-- Inversion for a successful `spectrogramModel` call: either the empty
shortcut, or the Tukey-windowed per-segment PSD grid. -/
theorem spectrogram_ok_inv (data : List ℝ) (fs : ℝ) (npArg : ℤ) (f t : List ℝ)
    (S : ℕ → ℕ → ℝ) (h : spectrogramModel data fs npArg = .ok (f, t, S)) :
    t = [] ∨
    ∃ np2, f = rfftfreqs fs np2 ∧
      (∀ k i, S k i = psdAt (tukeyQuarterPeriodic np2) fs np2
        (segmentAt data np2 (np2 - np2/8) i) k) := by
  unfold spectrogramModel at h
  split_ifs at h with h1 h2 h3
  · left
    simp only [Except.ok.injEq, Prod.mk.injEq] at h
    exact h.2.1.symm
  · right
    simp only [Except.ok.injEq, Prod.mk.injEq] at h
    refine ⟨min npArg.toNat data.length, h.1.symm, fun k i => ?_⟩
    rw [← h.2.2]

/-- All band powers of a successful absolute time-resolved run are
non-negative. -/
theorem periods_abs_entries_nonneg (data : List ℝ) (sf wsec : ℝ)
    (bands : List (String × (ℝ × ℝ))) (l : List (ℝ × ℝ × List (String × ℝ)))
    (hsf : 0 < sf)
    (h : bandpower_in_periods data sf bands wsec false = .ok l) :
    ∀ r ∈ l, ∀ p ∈ r.2.2, 0 ≤ p.2 := by
  unfold bandpower_in_periods at h
  cases hs : spectrogramModel data sf (pyInt (wsec * sf)) with
  | error e =>
    try rw [hs] at h
    simp at h
  | ok ftS =>
    obtain ⟨f, t, Sxx⟩ := ftS
    try rw [hs] at h
    try dsimp only at h
    simp only [Except.ok.injEq] at h
    subst h
    intro r hr p hp
    simp only [List.mem_map, List.mem_range] at hr
    obtain ⟨i, hi, rfl⟩ := hr
    simp only [Bool.false_eq_true, if_false] at hp
    rcases spectrogram_ok_inv data sf (pyInt (wsec * sf)) f t Sxx hs with ht | ⟨np2, hf, hS⟩
    · subst ht
      simp at hi
    · subst hf
      have hSnn : ∀ k, 0 ≤ Sxx k i := fun k => by
        rw [hS k i]
        exact psdAt_nonneg _ sf _ _ _ hsf
      exact windowBandPowers_nonneg sf np2 Sxx bands i hsf hSnn p hp

/-- Sum of the second components divided by a constant. -/
theorem sum_map_div (ps : List (String × ℝ)) (c : ℝ) :
    (ps.map (fun lp => lp.2 / c)).sum = (ps.map Prod.snd).sum / c := by
  induction ps with
  | nil => simp
  | cons a t ih => simp [ih, add_div]

/-- Dividing a list of non-negative values by their (nonzero) sum yields
entries in `[0, 1]` summing to exactly 1. -/
theorem normalizePowers_props (ps : List (String × ℝ))
    (hnn : ∀ p ∈ ps, 0 ≤ p.2) (htot : (ps.map Prod.snd).sum ≠ 0) :
    ((normalizePowers ps).map Prod.snd).sum = 1 ∧
    ∀ q ∈ normalizePowers ps, 0 ≤ q.2 ∧ q.2 ≤ 1 := by
  have htotnn : 0 ≤ (ps.map Prod.snd).sum := by
    apply List.sum_nonneg
    intro x hx
    simp only [List.mem_map] at hx
    obtain ⟨q, hq, rfl⟩ := hx
    exact hnn q hq
  have htpos : 0 < (ps.map Prod.snd).sum := lt_of_le_of_ne htotnn (Ne.symm htot)
  have hmap : ((normalizePowers ps).map Prod.snd)
      = ps.map (fun lp => lp.2 / (ps.map Prod.snd).sum) := by
    simp [normalizePowers, List.map_map]
  constructor
  · rw [hmap, sum_map_div, div_self htot]
  · intro q hq
    unfold normalizePowers at hq
    simp only [List.mem_map] at hq
    obtain ⟨lp, hlp, rfl⟩ := hq
    constructor
    · exact div_nonneg (hnn lp hlp) htotnn
    · rw [div_le_one htpos]
      exact List.single_le_sum (fun x hx => by
        simp only [List.mem_map] at hx
        obtain ⟨q2, hq2, rfl⟩ := hx
        exact hnn q2 hq2) lp.2 (List.mem_map_of_mem Prod.snd hlp)

/-- C10: in the time-resolved path with `relative = true`, every window with
nonzero requested-bands total emits relative powers that sum to exactly 1
(the normaliser is the sum of precisely those band powers, whether or not
the bands tile the spectrum), each lying in `[0, 1]` (trapezoidal
integration of the non-negative PSD is non-negative). -/
theorem C10_window_relative_normalized (data : List ℝ) (sf wsec : ℝ)
    (bands : List (String × (ℝ × ℝ))) (la : List (ℝ × ℝ × List (String × ℝ)))
    (hsf : 0 < sf)
    (ha : bandpower_in_periods data sf bands wsec false = .ok la) :
    ∃ lr, bandpower_in_periods data sf bands wsec true = .ok lr ∧
      lr.length = la.length ∧
      ∀ i, i < la.length →
        ((la.getD i (0,0,[])).2.2.map Prod.snd).sum ≠ 0 →
          (((lr.getD i (0,0,[])).2.2.map Prod.snd).sum = 1 ∧
           ∀ p ∈ (lr.getD i (0,0,[])).2.2, 0 ≤ p.2 ∧ p.2 ≤ 1) := by
  refine ⟨_, periods_rel_of_abs data sf bands wsec la ha, by simp, ?_⟩
  intro i hi htot
  have hgetD : (la.map (fun r => (r.1, r.2.1, normalizePowers r.2.2))).getD i (0,0,[])
      = ((la.getD i (0,0,[])).1, (la.getD i (0,0,[])).2.1,
         normalizePowers (la.getD i (0,0,[])).2.2) := by
    rw [List.getD_eq_getElem _ _ (by simpa using hi), List.getElem_map,
      List.getD_eq_getElem _ _ hi]
  rw [hgetD]
  have hmem : la.getD i (0,0,[]) ∈ la := by
    rw [List.getD_eq_getElem _ _ hi]
    exact List.getElem_mem _
  have hnn := periods_abs_entries_nonneg data sf wsec bands la hsf ha _ hmem
  exact normalizePowers_props _ hnn htot

/-- Witness for C10 at the signal `[0,8,0,0]`, `sf = 4`, bands `A = [0,1]`,
`B = [1,2]`: the single window's relative powers (`35/78` and `43/78`) sum
to 1 and lie in `[0,1]`. -/
theorem C10_window_relative_normalized_witness :
    ∃ lr, bandpower_in_periods [0,8,0,0] 4 [("A",(0,1)),("B",(1,2))] 1 true = .ok lr ∧
      ((lr.getD 0 (0,0,[])).2.2.map Prod.snd).sum = 1 ∧
      ∀ p ∈ (lr.getD 0 (0,0,[])).2.2, 0 ≤ p.2 ∧ p.2 ≤ 1 := by
  obtain ⟨lr, h1, h2, h3⟩ := C10_window_relative_normalized [0,8,0,0] 4 1
    [("A",(0,1)),("B",(1,2))] [(1/2, 3/2, [("A", 35/6), ("B", 43/6)])]
    (by norm_num) periods04_abs
  have h4 := h3 0 (by norm_num) (by norm_num [List.getD_cons_zero])
  exact ⟨lr, h1, h4.1, h4.2⟩
